import Mathlib

/-!
# Verification of the io-ts-dynamodb codec core

A shallow embedding of `src/index.ts` together with the parts of its external
collaborators (`io-ts`, `io-ts-types`, `fp-ts`) that the library's behaviour
depends on.  JavaScript runtime values are modelled by the inductive `JsValue`;
codecs are records of `name`/`is`/`validate`/`encode` exactly as in `io-ts`'s
`Type` class, with `decode i = validate i [{key := "", type := self, actual := i}]`.

Modelling conventions (each noted again at the definition it concerns):
* JS numbers are modelled on their integer fragment (`Int`); the library's
  number parsing (`NumberFromString`, i.e. `+s` with an `isNaN` / blank-string
  check) is embedded for optionally signed decimal integer literals.
* A context frame stores the referenced codec's `name` rather than the codec
  itself (in `io-ts` the frame holds the codec object; only its name is ever
  observable in error reports).
* A JS `Set` is modelled as the list of its elements in insertion order
  (`JsValue.set`); `instanceof Set` guarantees pairwise-distinct elements.
* `Array.prototype.sort` with an fp-ts `Ord` comparator is modelled by a
  comparator-based insertion sort (`listInsertionSort`); on duplicate-free
  element lists every comparison sort computes the same result.
-/

namespace IoTsDynamoDb

/-- The universe of JavaScript runtime values that can reach the codecs:
`undefined`, `null`, booleans, numbers (integer fragment), strings, arrays,
plain objects (own enumerable string-keyed fields in insertion order), and
`Set` instances (elements in insertion order). -/
inductive JsValue where
  | undefined
  | null
  | bool (b : Bool)
  | num (n : Int)
  | str (s : String)
  | arr (xs : List JsValue)
  | obj (fields : List (String × JsValue))
  | set (xs : List JsValue)

/-- One frame of an `io-ts` error context: `{key, type, actual}`.  The `type`
field of the source holds the codec object itself; we record its `name`,
which is the codec's only observable identity in a context frame. -/
structure ContextEntry where
  key : String
  typeName : String
  actual : JsValue

/-- An `io-ts` `ValidationError`: `{value, context, message?}`. -/
structure ValidationError where
  value : JsValue
  context : List ContextEntry
  message : Option String

/-- `io-ts` `Validation<A> = Either<Errors, A>`. -/
abbrev Validation (α : Type) : Type := Except (List ValidationError) α

/-- A runtime codec: `io-ts`'s `Type` class, untyped over `JsValue` exactly as
JavaScript itself is untyped.  `is` is the type guard restricted to the
`JsValue` universe, `validate` takes the input and a context trail, `encode`
is total (its value on inputs rejected by `is` is unchecked garbage in the
source; such branches are modelled by `JsValue.undefined`). -/
structure Codec where
  name : String
  is : JsValue → Bool
  validate : JsValue → List ContextEntry → Validation JsValue
  encode : JsValue → JsValue

/-- `io-ts` `Type.decode`: validation starting from the root context
`[{key: '', type: this, actual: i}]`. -/
def Codec.decode (c : Codec) (i : JsValue) : Validation JsValue :=
  c.validate i [⟨"", c.name, i⟩]

/-- `typeof v === 'object'` (true for `null`, plain objects, arrays and `Set`s). -/
def JsValue.typeofIsObject : JsValue → Bool
  | .null => true
  | .obj _ => true
  | .arr _ => true
  | .set _ => true
  | _ => false

/-- `v === null`. -/
def JsValue.isNull : JsValue → Bool
  | .null => true
  | _ => false

/-- The JS `in` operator for the property names this library uses: own fields
of objects, indices and `length` of arrays.  (Prototype-chain properties and
non-canonical index strings never coincide with a DynamoDB tag key or a
declared record field, so they are elided.) -/
def JsValue.hasProp : JsValue → String → Bool
  | .obj fs, k => fs.any (fun p => p.1 == k)
  | .arr xs, k => k == "length" || (k.toNat?.elim false (· < xs.length))
  | _, _ => false

/-- The JS property read `v[k]` (with `undefined` for absent properties),
again restricted to the property names this library can mention. -/
def JsValue.getProp : JsValue → String → JsValue
  | .obj fs, k => ((fs.find? (fun p => p.1 == k)).map (·.2)).getD .undefined
  | .arr xs, k =>
      if k == "length" then .num xs.length
      else ((k.toNat?.bind (fun n => xs.get? n)).map id).getD .undefined
  | _, _ => .undefined

/-- The list of own keys of an object value (empty for non-objects). -/
def JsValue.objKeys : JsValue → List String
  | .obj fs => fs.map (·.1)
  | _ => []

/-- `t.failure(u, c)`: a single-error `Left` with no message. -/
def failureAt (u : JsValue) (c : List ContextEntry) : Validation JsValue :=
  .error [⟨u, c, none⟩]

/-- `io-ts` `t.string`: guards `typeof u === 'string'`; decode is the
identity on strings, encode is the identity. -/
def tString : Codec where
  name := "string"
  is := fun u => match u with | .str _ => true | _ => false
  validate := fun u c => match u with
    | .str s => .ok (.str s)
    | _ => failureAt u c
  encode := fun a => a

/-- `io-ts` `t.boolean`. -/
def tBoolean : Codec where
  name := "boolean"
  is := fun u => match u with | .bool _ => true | _ => false
  validate := fun u c => match u with
    | .bool b => .ok (.bool b)
    | _ => failureAt u c
  encode := fun a => a

/-- `io-ts` `t.null`: accepts exactly the value `null`; encode is the identity. -/
def tNull : Codec where
  name := "null"
  is := fun u => match u with | .null => true | _ => false
  validate := fun u c => match u with
    | .null => .ok .null
    | _ => failureAt u c
  encode := fun a => a

/-- JS whitespace, for the purposes of `String.prototype.trim` and `ToNumber`
(the ASCII forms; exotic Unicode whitespace never reaches these codecs). -/
def isJsWhitespace (c : Char) : Bool :=
  c == ' ' || c == '\t' || c == '\n' || c == '\r'

/-- Strip leading and trailing whitespace from a character list
(`s.trim`, character-level model). -/
def trimChars (l : List Char) : List Char :=
  ((l.dropWhile isJsWhitespace).reverse.dropWhile isJsWhitespace).reverse

/-- Is `c` an ASCII decimal digit? -/
def isDigitChar (c : Char) : Bool :=
  48 ≤ c.toNat && c.toNat ≤ 57

/-- Numeric value of a digit string (most significant digit first). -/
def digitsVal (l : List Char) : Nat :=
  l.foldl (fun acc c => acc * 10 + (c.toNat - 48)) 0

/-- JS `+s` (string-to-number coercion) on the integer fragment: optional
surrounding whitespace, an optional sign, then decimal digits; `none` models a
`NaN` result.  (`+"" === 0`, handled by the blank branch; non-integer numeric
literals such as `"1.5"` lie outside the fragment used by this library's
claims and tests.) -/
def jsStringToNumber (s : String) : Option Int :=
  match trimChars s.data with
  | [] => some 0
  | c :: rest =>
      let core := if c == '-' || c == '+' then rest else c :: rest
      let sign : Int := if c == '-' then -1 else 1
      if !core.isEmpty && core.all isDigitChar then some (sign * digitsVal core)
      else none

/-- `io-ts-types` `NumberFromString`: `is` is `t.number.is`; decode first runs
`t.string.validate`, then coerces with `+s`, failing when the result `isNaN`
or when the trimmed string is empty; encode is `String(n)`. -/
def NumberFromString : Codec where
  name := "NumberFromString"
  is := fun u => match u with | .num _ => true | _ => false
  validate := fun u c => match u with
    | .str s =>
        match jsStringToNumber s, (trimChars s.data).isEmpty with
        | some n, false => .ok (.num n)
        | _, _ => failureAt u c
    | _ => failureAt u c
  encode := fun a => match a with | .num n => .str (toString n) | _ => .undefined

/-- `io-ts-types` `mapOutput(codec, f)`: same name, `is` and `validate`;
encode becomes `f ∘ codec.encode`. -/
def mapOutput (codec : Codec) (f : JsValue → JsValue) : Codec :=
  { codec with encode := fun a => f (codec.encode a) }

/-- `fp-ts` `constTrue`. -/
def constTrue : JsValue → JsValue := fun _ => .bool true

/-- JS `<` on strings (lexicographic by character code), as an executable
comparison of character lists; see `charListLt_iff_lex` and `strLt_iff_lt`
for agreement with the mathematical lexicographic order. -/
def charListLt : List Char → List Char → Bool
  | [], [] => false
  | [], _ :: _ => true
  | _ :: _, [] => false
  | a :: as, b :: bs => if a < b then true else if b < a then false else charListLt as bs

/-- JS `x < y` on strings. -/
def strLt (x y : String) : Bool := charListLt x.data y.data

/-- `fp-ts` `ord.ordString.compare`, i.e. `x < y ? -1 : x > y ? 1 : 0` on
strings (lexicographic); its value on non-string arguments is never used by
the library (a string set holds only strings) and is modelled as `.eq`. -/
def ordStringCompare : JsValue → JsValue → Ordering
  | .str x, .str y => if strLt x y then .lt else if strLt y x then .gt else .eq
  | _, _ => .eq

/-- `fp-ts` `ord.ordNumber.compare` on the integer fragment. -/
def ordNumberCompare : JsValue → JsValue → Ordering
  | .num x, .num y => if x < y then .lt else if y < x then .gt else .eq
  | _, _ => .eq

/-- Comparator-based ordered insertion (`le a b` = "a sorts no later than b"). -/
def listOrderedInsert (le : α → α → Bool) (a : α) : List α → List α
  | [] => [a]
  | b :: l => if le a b then a :: b :: l else b :: listOrderedInsert le a l

/-- Comparator-based insertion sort, the model of `Array.prototype.sort(cmp)`
as used by `fp-ts`'s `Set.toArray(O)`: on duplicate-free inputs (the only ones
a `Set` produces) every comparison sort agrees with it. -/
def listInsertionSort (le : α → α → Bool) : List α → List α
  | [] => []
  | a :: l => listOrderedInsert le a (listInsertionSort le l)

/-- `fp-ts` `Set.toArray(O)`: the set's elements sorted by `O.compare`. -/
def setToArray (cmp : JsValue → JsValue → Ordering) (xs : List JsValue) : List JsValue :=
  listInsertionSort (fun a b => cmp a b != Ordering.gt) xs

/-- Whether a list contains two elements identified by `eqv`;
`fp-ts` `Set.fromArray(O)(as).size !== as.length` holds exactly when
`hasDupBy (O-equality) as` does (deduplication drops an element iff some pair
of elements is `O`-equal). -/
def hasDupBy (eqv : α → α → Bool) : List α → Bool
  | [] => false
  | a :: l => l.any (eqv a) || hasDupBy eqv l

/-- Element loop of `io-ts` `t.array(item).validate`: validates `us[i]` under
the context extended with frame `{key: String(i), type: item, actual: us[i]}`,
accumulating all element errors in order and the per-index success values. -/
def arrayGo (item : Codec) (c : List ContextEntry) :
    Nat → List JsValue → List ValidationError × List JsValue
  | _, [] => ([], [])
  | i, u :: rest =>
      let r := item.validate u (c ++ [⟨toString i, item.name, u⟩])
      let (es, as) := arrayGo item c (i + 1) rest
      match r with
      | .error e => (e ++ es, u :: as)
      | .ok a => (es, a :: as)

/-- `io-ts` `t.array(item).validate` returning the validated element list:
first `UnknownArray.validate` (is the input an array?), then the element loop;
succeeds only when no element produced an error. -/
def arrayValidate (item : Codec) (u : JsValue) (c : List ContextEntry) :
    Validation (List JsValue) :=
  match u with
  | .arr us =>
      let (es, as) := arrayGo item c 0 us
      if es.isEmpty then .ok as else .error es
  | _ => .error [⟨u, c, none⟩]

/-- `io-ts` `t.array(item)`. -/
def tArray (item : Codec) : Codec where
  name := "Array<" ++ item.name ++ ">"
  is := fun u => match u with | .arr xs => xs.all item.is | _ => false
  validate := fun u c => (arrayValidate item u c).map .arr
  encode := fun a => match a with
    | .arr xs => .arr (xs.map item.encode)
    | _ => .undefined

/-- `io-ts-types` `setFromArray(codec, O, name)`:
`is` is `u instanceof Set && toArray(O)(u).every(codec.is)`;
decode validates the input as an array of `codec`, then fails iff
`fromArray(O)` would collapse two `O`-equal elements (`set.size !== as.length`),
otherwise succeeds with the set of the decoded elements (insertion order);
encode is `t.array(codec).encode(toArray(O)(set))`. -/
def setFromArray (codec : Codec) (cmp : JsValue → JsValue → Ordering)
    (name : String) : Codec where
  name := name
  is := fun u => match u with
    | .set xs => (setToArray cmp xs).all codec.is
    | _ => false
  validate := fun u c =>
    match arrayValidate codec u c with
    | .error es => .error es
    | .ok as =>
        if hasDupBy (fun a b => cmp a b == Ordering.eq) as then .error [⟨u, c, none⟩]
        else .ok (.set as)
  encode := fun a => match a with
    | .set xs => .arr ((setToArray cmp xs).map codec.encode)
    | _ => .undefined

/-- The `DynamoDbType` base class (`src/index.ts` lines 30–62): name, the inner
codec's `is`, a validate function that ignores the incoming context (the source
passes a one-argument lambda where `io-ts` expects `(i, context)`), checks
`typeof i === 'object' && i !== null && key in i`, producing on failure one
error with the literal message `"Expected object with key " + key` and the
single context frame `[{key: '', type: this, actual: i}]`, and on success
delegates to `codec.decode(i[key])` (a fresh root context for the inner codec);
encode wraps as `{[key]: codec.encode(val)}`. -/
def DynamoDbType (name : String) (key : String) (codec : Codec) : Codec where
  name := name
  is := codec.is
  validate := fun i _ =>
    if !i.typeofIsObject || i.isNull || !(i.hasProp key) then
      .error [⟨i, [⟨"", name, i⟩], some ("Expected object with key " ++ key)⟩]
    else
      codec.decode (i.getProp key)
  encode := fun val => .obj [(key, codec.encode val)]

/-- `D.string = new DynamoDbType('DynamoDbString', 'S', t.string)`. -/
def string : Codec := DynamoDbType "DynamoDbString" "S" tString

/-- `D.number = new DynamoDbType('DynamoDbNumber', 'N', NumberFromString)`. -/
def number : Codec := DynamoDbType "DynamoDbNumber" "N" NumberFromString

/-- `D.bool = new DynamoDbType('DynamoDbBool', 'BOOL', t.boolean)`. -/
def bool : Codec := DynamoDbType "DynamoDbBool" "BOOL" tBoolean

/-- `D.stringSet = new DynamoDbType('DynamoDbStringSet', 'SS',
setFromArray(t.string, ord.ordString))`. -/
def stringSet : Codec :=
  DynamoDbType "DynamoDbStringSet" "SS" (setFromArray tString ordStringCompare "Set<string>")

/-- `D.numberSet = new DynamoDbType('DynamoDbNumberSet', 'NS',
setFromArray(NumberFromString, ord.ordNumber))`. -/
def numberSet : Codec :=
  DynamoDbType "DynamoDbNumberSet" "NS"
    (setFromArray NumberFromString ordNumberCompare "Set<NumberFromString>")

/-- `D.null = new DynamoDbType('DynamoDbNull', 'NULL', mapOutput(t.null, constTrue))`
(exported as `null`, internal const `nullType`).  Note `mapOutput` changes only
the encoder: the decoder of the inner codec is still `t.null`'s. -/
def nullType : Codec := DynamoDbType "DynamoDbNull" "NULL" (mapOutput tNull constTrue)

/-- `D.list(codec) = new DynamoDbType('DynamoDbList<name>', 'L', t.array(codec))`. -/
def list (codec : Codec) : Codec :=
  DynamoDbType ("DynamoDbList<" ++ codec.name ++ ">") "L" (tArray codec)

/-- JS `a[k] = v` on a plain object: replaces the value at an existing key
(keeping its position), otherwise appends the key. -/
def updateField (fs : List (String × JsValue)) (k : String) (v : JsValue) :
    List (String × JsValue) :=
  if fs.any (fun p => p.1 == k) then
    fs.map (fun p => if p.1 == k then (p.1, v) else p)
  else fs ++ [(k, v)]

/-- Field lookup on an object's field list with `undefined` default (`a[k]`). -/
def lookupField (fs : List (String × JsValue)) (k : String) : JsValue :=
  ((fs.find? (fun p => p.1 == k)).map (·.2)).getD .undefined

/-- Field loop of `io-ts` `t.type(props).validate`: walks the declared
properties in order, validating `a[k]` under the context extended by
`{key: k, type: propCodec, actual: a[k]}`, accumulating all field errors and
threading the assignments `a[k] = decodedValue` through the object. -/
def tTypeGo (c : List ContextEntry) (a : List (String × JsValue)) :
    List (String × Codec) → List ValidationError × List (String × JsValue)
  | [] => ([], a)
  | (k, ty) :: rest =>
      let ak := lookupField a k
      match ty.validate ak (c ++ [⟨k, ty.name, ak⟩]) with
      | .error es =>
          let (es2, a2) := tTypeGo c a rest
          (es ++ es2, a2)
      | .ok vak => tTypeGo c (updateField a k vak) rest

/-- `io-ts` `t.type(props)` (the `InterfaceType` of defined property codecs):
default name `{ k1: name1, ... }`; `is` checks `UnknownRecord.is` and every
property codec's `is` on the corresponding field; validate first checks the
input is a non-null, non-array object, then runs the field loop; encode copies
the input object and overwrites each declared field with its encoding. -/
def tType (props : List (String × Codec)) : Codec where
  name :=
    "\x7b " ++ String.intercalate ", " (props.map (fun p => p.1 ++ ": " ++ p.2.name)) ++ " \x7d"
  is := fun u => match u with
    | .obj fs => props.all (fun p => p.2.is (lookupField fs p.1))
    | _ => false
  validate := fun u c => match u with
    | .obj fs =>
        let (es, a) := tTypeGo c fs props
        if es.isEmpty then .ok (.obj a) else .error es
    | _ => .error [⟨u, c, none⟩]
  encode := fun a => match a with
    | .obj fs =>
        .obj (props.foldl (fun s p => updateField s p.1 (p.2.encode (lookupField fs p.1))) fs)
    | _ => .undefined

/-- `D.record(properties)` (`src/index.ts` lines 240–265).  The schema is a
finite map from field name to a codec *or no codec* (`none` models a declared
key whose value is `undefined`).  `t.type(properties)` computes its default
name by reading `properties[k].name` for every key, which throws a `TypeError`
when an entry is `undefined`; construction is therefore modelled as `Except`,
failing exactly when some entry is missing.  On success the codec has name
`DynamoDbRecord<{k1, k2, ...}>`, `is` and decode delegated to
`t.type(properties)` (decode is passed where `io-ts` expects validate, so the
incoming context is ignored and a fresh root context is used), and an encoder
that builds a fresh flat object with `result[key] = prop.encode(a[key])` for
each declared key, skipping a key when its codec is missing (`if (prop)`) —
a branch that is unreachable because construction already failed. -/
def record (properties : List (String × Option Codec)) : Except String Codec :=
  if properties.all (fun p => p.2.isSome) then
    let props : List (String × Codec) :=
      properties.filterMap (fun p => p.2.map (fun c => (p.1, c)))
    let propertyCodecs := tType props
    .ok
      { name :=
          "DynamoDbRecord<\x7b" ++ String.intercalate ", " (properties.map (·.1)) ++ "\x7d>"
        is := propertyCodecs.is
        validate := fun i _ => propertyCodecs.decode i
        encode := fun a =>
          .obj (properties.filterMap
            (fun p => p.2.map (fun prop => (p.1, prop.encode (a.getProp p.1))))) }
  else .error "TypeError: cannot read property name of undefined"

/-- The codec `D.record(props)` evaluates to when every schema entry is
present (the only case in which construction succeeds); see
`record_eq_ok_recordOk` for the correspondence with `record`. -/
def recordOk (props : List (String × Codec)) : Codec where
  name := "DynamoDbRecord<\x7b" ++ String.intercalate ", " (props.map (·.1)) ++ "\x7d>"
  is := (tType props).is
  validate := fun i _ => (tType props).decode i
  encode := fun a => .obj (props.map (fun p => (p.1, p.2.encode (a.getProp p.1))))

/-! ### The executable string order agrees with the lexicographic order -/

theorem charListLt_iff_lex : ∀ x y : List Char, charListLt x y = true ↔ List.Lex (· < ·) x y
  | [], [] => by
      simp only [charListLt, Bool.false_eq_true, false_iff]
      exact List.Lex.not_nil_right _ _
  | [], _ :: _ => by
      simp only [charListLt, true_iff]
      exact List.Lex.nil
  | _ :: _, [] => by
      simp only [charListLt, Bool.false_eq_true, false_iff]
      exact List.Lex.not_nil_right _ _
  | a :: as, b :: bs => by
      rcases lt_trichotomy a b with h | h | h
      · simp only [charListLt, if_pos h, true_iff]
        exact List.Lex.rel h
      · subst h
        simp only [charListLt, if_neg (lt_irrefl a)]
        rw [charListLt_iff_lex as bs]
        exact List.Lex.cons_iff.symm
      · simp only [charListLt, if_neg (asymm h), if_pos h, Bool.false_eq_true, false_iff]
        intro hlex
        cases hlex with
        | cons _ => exact absurd h (lt_irrefl _)
        | rel h' => exact absurd h' (asymm h)

theorem strLt_iff_lt (x y : String) : strLt x y = true ↔ x < y :=
  (charListLt_iff_lex x.data y.data).trans String.lt_iff_toList_lt.symm

theorem strLt_eq_decide (x y : String) : strLt x y = decide (x < y) := by
  by_cases h : x < y
  · rw [(strLt_iff_lt x y).mpr h, decide_eq_true h]
  · rw [decide_eq_false h]
    cases hc : strLt x y
    · rfl
    · exact absurd ((strLt_iff_lt x y).mp hc) h

theorem ordStringCompare_str (x y : String) :
    ordStringCompare (.str x) (.str y) =
      (if x < y then Ordering.lt else if y < x then Ordering.gt else Ordering.eq) := by
  simp only [ordStringCompare, strLt_eq_decide]
  by_cases h1 : x < y
  · simp [h1]
  · by_cases h2 : y < x <;> simp [h1, h2]

theorem ordStringCompare_bne_gt (x y : String) :
    (ordStringCompare (.str x) (.str y) != Ordering.gt) = decide (x ≤ y) := by
  rw [ordStringCompare_str]
  rcases lt_trichotomy x y with h | h | h
  · rw [if_pos h, decide_eq_true (le_of_lt h)]
    rfl
  · subst h
    rw [if_neg (lt_irrefl x), if_neg (lt_irrefl x), decide_eq_true (le_refl x)]
    rfl
  · rw [if_neg (asymm h), if_pos h, decide_eq_false (not_le.mpr h)]
    rfl

theorem ordStringCompare_beq_eq (x y : String) :
    (ordStringCompare (.str x) (.str y) == Ordering.eq) = decide (x = y) := by
  rw [ordStringCompare_str]
  rcases lt_trichotomy x y with h | h | h
  · rw [if_pos h, decide_eq_false (ne_of_lt h)]
    rfl
  · subst h
    rw [if_neg (lt_irrefl x), if_neg (lt_irrefl x), decide_eq_true (Eq.refl x)]
    rfl
  · rw [if_neg (asymm h), if_pos h, decide_eq_false (ne_of_gt h)]
    rfl

theorem ordNumberCompare_bne_gt (x y : Int) :
    (ordNumberCompare (.num x) (.num y) != Ordering.gt) = decide (x ≤ y) := by
  simp only [ordNumberCompare]
  rcases lt_trichotomy x y with h | h | h
  · rw [if_pos h, decide_eq_true (le_of_lt h)]
    rfl
  · subst h
    rw [if_neg (lt_irrefl x), if_neg (lt_irrefl x), decide_eq_true (le_refl x)]
    rfl
  · rw [if_neg (asymm h), if_pos h, decide_eq_false (not_le.mpr h)]
    rfl

theorem ordNumberCompare_beq_eq (x y : Int) :
    (ordNumberCompare (.num x) (.num y) == Ordering.eq) = decide (x = y) := by
  simp only [ordNumberCompare]
  rcases lt_trichotomy x y with h | h | h
  · rw [if_pos h, decide_eq_false (ne_of_lt h)]
    rfl
  · subst h
    rw [if_neg (lt_irrefl x), if_neg (lt_irrefl x), decide_eq_true (Eq.refl x)]
    rfl
  · rw [if_neg (asymm h), if_pos h, decide_eq_false (ne_of_gt h)]
    rfl

/-! ### The comparator-based insertion sort agrees with Mathlib's -/

theorem listOrderedInsert_eq_orderedInsert (r : α → α → Prop) [DecidableRel r] (a : α) :
    ∀ l : List α, listOrderedInsert (fun x y => decide (r x y)) a l = List.orderedInsert r a l
  | [] => rfl
  | b :: l => by
      simp only [listOrderedInsert, List.orderedInsert]
      by_cases h : r a b
      · simp [h]
      · simp [h, listOrderedInsert_eq_orderedInsert r a l]

theorem listInsertionSort_eq_insertionSort (r : α → α → Prop) [DecidableRel r] :
    ∀ l : List α, listInsertionSort (fun x y => decide (r x y)) l = List.insertionSort r l
  | [] => rfl
  | a :: l => by
      rw [listInsertionSort, List.insertionSort, listInsertionSort_eq_insertionSort r l,
        listOrderedInsert_eq_orderedInsert]

theorem listOrderedInsert_map (g : α → β) (le : α → α → Bool) (le' : β → β → Bool)
    (h : ∀ x y, le' (g x) (g y) = le x y) (a : α) :
    ∀ l : List α, listOrderedInsert le' (g a) (l.map g) = (listOrderedInsert le a l).map g
  | [] => rfl
  | b :: l => by
      simp only [List.map_cons, listOrderedInsert, h]
      cases hab : le a b
      · simp [listOrderedInsert_map g le le' h a l]
      · simp

theorem listInsertionSort_map (g : α → β) (le : α → α → Bool) (le' : β → β → Bool)
    (h : ∀ x y, le' (g x) (g y) = le x y) :
    ∀ l : List α, listInsertionSort le' (l.map g) = (listInsertionSort le l).map g
  | [] => rfl
  | a :: l => by
      rw [List.map_cons, listInsertionSort, listInsertionSort,
        listInsertionSort_map g le le' h l, listOrderedInsert_map g le le' h]

theorem setToArray_str (xs : List String) :
    setToArray ordStringCompare (xs.map .str) =
      (List.insertionSort (· ≤ ·) xs).map .str := by
  rw [setToArray,
    listInsertionSort_map JsValue.str (fun x y => decide (x ≤ y)) _
      (fun x y => ordStringCompare_bne_gt x y) xs,
    listInsertionSort_eq_insertionSort]

theorem setToArray_num (ns : List Int) :
    setToArray ordNumberCompare (ns.map .num) =
      (List.insertionSort (· ≤ ·) ns).map .num := by
  rw [setToArray,
    listInsertionSort_map JsValue.num (fun x y => decide (x ≤ y)) _
      (fun x y => ordNumberCompare_bne_gt x y) ns,
    listInsertionSort_eq_insertionSort]

/-! ### Duplicate detection on embedded element lists -/

theorem any_eqv_map {γ : Type} [DecidableEq γ] (g : γ → JsValue)
    (eqv : JsValue → JsValue → Bool)
    (h : ∀ x y : γ, eqv (g x) (g y) = decide (x = y)) (a : γ) :
    ∀ l : List γ, (l.map g).any (eqv (g a)) = decide (a ∈ l)
  | [] => by simp
  | b :: l => by
      simp only [List.map_cons, List.any_cons, h, any_eqv_map g eqv h a l]
      by_cases hab : a = b
      · simp [hab]
      · simp [hab, List.mem_cons]

theorem hasDupBy_map {γ : Type} [DecidableEq γ] (g : γ → JsValue)
    (eqv : JsValue → JsValue → Bool)
    (h : ∀ x y : γ, eqv (g x) (g y) = decide (x = y)) :
    ∀ l : List γ, hasDupBy eqv (l.map g) = !decide l.Nodup
  | [] => by simp [hasDupBy]
  | a :: l => by
      simp only [List.map_cons, hasDupBy, any_eqv_map g eqv h a,
        hasDupBy_map g eqv h l]
      by_cases hm : a ∈ l <;> by_cases hn : l.Nodup <;>
        simp [List.nodup_cons, hm, hn]

/-! ### The element loop of `t.array` -/

theorem arrayGo_str (c : List ContextEntry) :
    ∀ (i : Nat) (ss : List String),
      arrayGo tString c i (ss.map .str) = ([], ss.map .str)
  | _, [] => rfl
  | i, s :: ss => by
      simp only [List.map_cons, arrayGo, arrayGo_str c (i + 1) ss]
      rfl

theorem arrayGo_num (c : List ContextEntry) {ns : List String} {vs : List Int}
    (h : List.Forall₂
      (fun s v => ∀ ctx, NumberFromString.validate (.str s) ctx = .ok (.num v)) ns vs) :
    ∀ i : Nat, arrayGo NumberFromString c i (ns.map .str) = ([], vs.map .num) := by
  induction h with
  | nil => intro i; rfl
  | cons hsv _ ih =>
      intro i
      simp only [List.map_cons, arrayGo, ih (i + 1), hsv]

theorem arrayGo_all_ok (item : Codec) (c : List ContextEntry)
    (hwf : ∀ u ctx es, item.validate u ctx = .error es → es ≠ []) :
    ∀ (i : Nat) (us : List JsValue),
      (arrayGo item c i us).1 = [] →
      List.Forall₂ (fun u d => ∃ ctx, item.validate u ctx = .ok d) us
        (arrayGo item c i us).2
  | _, [] => fun _ => List.Forall₂.nil
  | i, u :: us => by
      intro h1
      cases hrec : arrayGo item c (i + 1) us with
      | mk es as =>
        cases hr : item.validate u (c ++ [⟨toString i, item.name, u⟩]) with
        | error e =>
            exfalso
            have hfst : (arrayGo item c i (u :: us)).1 = e ++ es := by
              simp [arrayGo, hr, hrec]
            rw [hfst] at h1
            exact hwf u _ e hr (List.append_eq_nil.mp h1).1
        | ok a =>
            have heq : arrayGo item c i (u :: us) = (es, a :: as) := by
              simp [arrayGo, hr, hrec]
            rw [heq] at h1 ⊢
            have ih := arrayGo_all_ok item c hwf (i + 1) us
            rw [hrec] at ih
            exact List.Forall₂.cons ⟨_, hr⟩ (ih h1)

/-! ### General facts about the embedded codecs -/

/-- A `DynamoDbType` codec applied to an object possessing its tag key
delegates to the inner codec's decode on the tagged value. -/
theorem dynType_decode_obj (name key : String) (codec : Codec)
    (fields : List (String × JsValue)) (h : (JsValue.obj fields).hasProp key = true) :
    (DynamoDbType name key codec).decode (.obj fields) =
      codec.decode ((JsValue.obj fields).getProp key) := by
  simp [Codec.decode, DynamoDbType, JsValue.typeofIsObject, JsValue.isNull, h]

theorem filterMap_someized {β : Type} (G : String → Codec → β) :
    ∀ props : List (String × Codec),
      (props.map (fun p => (p.1, some p.2))).filterMap (fun q => q.2.map (G q.1)) =
        props.map (fun p => G p.1 p.2)
  | [] => rfl
  | p :: props => by
      simp [List.filterMap_cons, filterMap_someized G props]

/-- `record` on a schema whose every entry is present constructs exactly
`recordOk` of the underlying property list. -/
theorem record_eq_recordOk (props : List (String × Codec)) :
    record (props.map (fun p => (p.1, some p.2))) = .ok (recordOk props) := by
  have hall : ((props.map (fun p => (p.1, some p.2))).all (fun p => p.2.isSome)) = true := by
    rw [List.all_eq_true]
    intro q hq
    obtain ⟨p, _, rfl⟩ := List.mem_map.mp hq
    rfl
  rw [record, if_pos hall]
  rw [filterMap_someized (fun k c => (k, c)) props]
  refine congrArg Except.ok ?_
  rw [recordOk]
  have h0 : props.map (fun p => (p.1, p.2)) = props := by
    simp
  have h1 : (props.map (fun p => (p.1, some p.2))).map (·.1) = props.map (·.1) := by
    simp
  have h2 : (fun a : JsValue => JsValue.obj ((props.map (fun p => (p.1, some p.2))).filterMap
      (fun q => q.2.map (fun prop => (q.1, prop.encode (a.getProp q.1)))))) =
      (fun a : JsValue => JsValue.obj (props.map (fun p => (p.1, p.2.encode (a.getProp p.1))))) := by
    funext a
    rw [filterMap_someized (fun k c => (k, c.encode (a.getProp k))) props]
  rw [h0, h1, h2]

/-- The string primitive satisfies the round-trip law. -/
theorem string_roundtrip (s : String) :
    string.decode (string.encode (.str s)) = .ok (.str s) := rfl

/-- The boolean primitive satisfies the round-trip law. -/
theorem bool_roundtrip (b : Bool) :
    bool.decode (bool.encode (.bool b)) = .ok (.bool b) := rfl

/-! ### Claim theorems -/

/-- Claim C1 (refuted, code bug): the round-trip law fails for the `null`
primitive codec.  `null.is` accepts the null value and `null.encode`
produces `{NULL: true}` (via `mapOutput(t.null, constTrue)`), but `mapOutput`
leaves the decoder equal to `t.null`'s, which accepts only the value `null`,
so `null.decode(null.encode(null))` is a `Left`, not `Right(null)`. -/
theorem primitive_roundtrip_violated_by_null :
    nullType.is .null = true ∧
    nullType.encode .null = .obj [("NULL", .bool true)] ∧
    nullType.decode (nullType.encode .null) =
      .error [⟨.bool true, [⟨"", "null", .bool true⟩], none⟩] :=
  ⟨rfl, rfl, rfl⟩

/-- Claim C2 (refuted, code bug): `null.decode({NULL:true})` does not return
`Right(null)`; the inner decoder is still `t.null`'s, so the only accepted
payload is the value `null` itself.  `{NULL:false}` is indeed rejected, and
`{NULL:null}` — not mentioned by the spec — is the payload that succeeds. -/
theorem null_decode_behavior :
    nullType.decode (.obj [("NULL", .bool true)]) =
      .error [⟨.bool true, [⟨"", "null", .bool true⟩], none⟩] ∧
    nullType.decode (.obj [("NULL", .bool false)]) =
      .error [⟨.bool false, [⟨"", "null", .bool false⟩], none⟩] ∧
    nullType.decode (.obj [("NULL", .null)]) = .ok .null :=
  ⟨rfl, rfl, rfl⟩

/-- Helper for the claim-C3 counterexample: the message of the first error of
a failed validation. -/
def leadErrorMessage : Validation JsValue → Option String
  | .error (e :: _) => e.message
  | _ => none

/-- Claim C3, counterexample: decoding `{}` with the string codec produces the
message `"Expected object with key S"` (capital E), not the claimed
`"expected object with key S"`. -/
theorem tag_rejection_message_counterexample :
    string.decode (.obj []) ≠
      .error [⟨.obj [], [⟨"", "DynamoDbString", .obj []⟩],
        some "expected object with key S"⟩] := by
  intro h
  have h2 : leadErrorMessage (string.decode (.obj [])) =
      some "expected object with key S" := by rw [h]; rfl
  rw [show leadErrorMessage (string.decode (.obj [])) =
      some "Expected object with key S" from rfl] at h2
  exact absurd (Option.some.inj h2) (by decide)

/-- Claim C3 (amended): for every `DynamoDbType` codec with tag `key`,
decoding an input that is not an object, is `null`, or lacks the key returns
(never throws) a single-error `Left` whose message is
`"Expected object with key <tag>"` and whose context is the single frame
`{key: '', type: the codec itself, actual: input}`. -/
theorem tag_rejection_shape (name key : String) (codec : Codec) (i : JsValue)
    (h : i.typeofIsObject = false ∨ i.isNull = true ∨ i.hasProp key = false) :
    (DynamoDbType name key codec).decode i =
      .error [⟨i, [⟨"", name, i⟩], some ("Expected object with key " ++ key)⟩] := by
  have hcond : (!i.typeofIsObject || i.isNull || !(i.hasProp key)) = true := by
    rcases h with h | h | h <;> simp [h]
  rw [Codec.decode]
  simp only [DynamoDbType]
  rw [if_pos hcond]

theorem tag_rejection_shape_witness :
    string.decode (.str "boom") =
      .error [⟨.str "boom", [⟨"", "DynamoDbString", .str "boom"⟩],
        some ("Expected object with key " ++ "S")⟩] :=
  tag_rejection_shape "DynamoDbString" "S" tString (.str "boom") (Or.inl rfl)

/-- Claim C4 (refuted, code bug): the record round-trip fails for a schema
containing the `null` field codec, because of the `null` codec's
encode/decode mismatch: the valid, fully-populated record `{x: null}` encodes
to `{x: {NULL: true}}`, which the record codec fails to decode. -/
theorem record_roundtrip_violated_by_null_field :
    (recordOk [("x", nullType)]).is (.obj [("x", .null)]) = true ∧
    (recordOk [("x", nullType)]).encode (.obj [("x", .null)]) =
      .obj [("x", .obj [("NULL", .bool true)])] ∧
    (recordOk [("x", nullType)]).decode
        ((recordOk [("x", nullType)]).encode (.obj [("x", .null)])) =
      .error [⟨.bool true, [⟨"", "null", .bool true⟩], none⟩] :=
  ⟨rfl, rfl, rfl⟩

/-- Claim C5 (confirmed): for every record schema and input value, the record
encoder emits a flat object (no outer tag) whose fields are exactly the
declared ones in declaration order, each field the corresponding codec's
encoding of the input's value at that key. -/
theorem record_encode_exactly_declared_fields (props : List (String × Codec))
    (a : JsValue) (_hvalid : (recordOk props).is a = true) :
    (recordOk props).encode a =
      .obj (props.map (fun p => (p.1, p.2.encode (a.getProp p.1)))) ∧
    ((recordOk props).encode a).objKeys = props.map (·.1) := by
  refine ⟨rfl, ?_⟩
  simp [recordOk, JsValue.objKeys]

theorem record_encode_exactly_declared_fields_witness :
    (recordOk [("id", string)]).encode (.obj [("id", .str "7")]) =
      .obj [("id", string.encode ((JsValue.obj [("id", .str "7")]).getProp "id"))] ∧
    ((recordOk [("id", string)]).encode (.obj [("id", .str "7")])).objKeys = ["id"] :=
  record_encode_exactly_declared_fields [("id", string)] (.obj [("id", .str "7")]) rfl

/-- Claim C6 (confirmed): a schema entry with a missing codec (a key mapped to
`undefined`) is rejected when the record codec is constructed — `t.type`'s
default-name computation reads `.name` of every entry and throws a
`TypeError` on `undefined` (modelled as `Except.error`) — so the encode-time
skip (`if (prop)`) is never reached and no field is silently dropped. -/
theorem record_missing_codec_rejected_at_construction
    (properties : List (String × Option Codec))
    (h : ∃ p ∈ properties, p.2 = none) :
    record properties = .error "TypeError: cannot read property name of undefined" := by
  obtain ⟨p, hmem, hnone⟩ := h
  have hall : ¬ (properties.all (fun q => q.2.isSome) = true) := by
    intro htrue
    have hp := List.all_eq_true.mp htrue p hmem
    rw [hnone] at hp
    simp at hp
  rw [record, if_neg hall]

theorem record_missing_codec_rejected_at_construction_witness :
    record [("a", (none : Option Codec))] =
      .error "TypeError: cannot read property name of undefined" :=
  record_missing_codec_rejected_at_construction [("a", none)]
    ⟨("a", none), by simp, rfl⟩

/-- Claim C9 (confirmed): for every `DynamoDbType` codec with tag `key` and
every input object containing `key`, decode is exactly the inner codec's
decode of the value at `key`; all other keys of the input are irrelevant. -/
theorem decode_ignores_other_keys (name key : String) (codec : Codec)
    (fields : List (String × JsValue))
    (h : (JsValue.obj fields).hasProp key = true) :
    (DynamoDbType name key codec).decode (.obj fields) =
      codec.decode ((JsValue.obj fields).getProp key) :=
  dynType_decode_obj name key codec fields h

theorem decode_ignores_other_keys_witness :
    string.decode (.obj [("S", .str "x"), ("N", .str "1")]) = .ok (.str "x") :=
  (decode_ignores_other_keys "DynamoDbString" "S" tString
    [("S", .str "x"), ("N", .str "1")] rfl).trans rfl

/-! ### Set encoding -/

theorem stringSet_encode_eq (zs : List String) :
    stringSet.encode (.set (zs.map .str)) =
      .obj [("SS", .arr ((List.insertionSort (· ≤ ·) zs).map .str))] := by
  simp only [stringSet, DynamoDbType, setFromArray, setToArray_str]
  rw [List.map_map]
  rfl

theorem numberSet_encode_eq (ns : List Int) :
    numberSet.encode (.set (ns.map .num)) =
      .obj [("NS", .arr ((List.insertionSort (· ≤ ·) ns).map (fun n => .str (toString n))))] := by
  simp only [numberSet, DynamoDbType, setFromArray, setToArray_num]
  rw [List.map_map]
  rfl

/-- Claim C7 (confirmed): `stringSet.encode` emits the `SS` tag wrapping the
set's elements in ascending lexicographic order, `numberSet.encode` emits the
`NS` tag wrapping the decimal representations in ascending numeric order, and
encoding the same logical set (a permutation of the same distinct elements)
yields identical wire output. -/
theorem set_encode_sorted_and_deterministic (xs ys : List String) (ns ms : List Int)
    (_hxd : xs.Nodup) (_hyd : ys.Nodup) (hxy : xs.Perm ys)
    (_hnd : ns.Nodup) (_hmd : ms.Nodup) (hnm : ns.Perm ms) :
    (∃ ss : List String, List.Sorted (· ≤ ·) ss ∧ ss.Perm xs ∧
      stringSet.encode (.set (xs.map .str)) = .obj [("SS", .arr (ss.map .str))]) ∧
    stringSet.encode (.set (xs.map .str)) = stringSet.encode (.set (ys.map .str)) ∧
    (∃ vs : List Int, List.Sorted (· ≤ ·) vs ∧ vs.Perm ns ∧
      numberSet.encode (.set (ns.map .num)) =
        .obj [("NS", .arr (vs.map (fun n => .str (toString n))))]) ∧
    numberSet.encode (.set (ns.map .num)) = numberSet.encode (.set (ms.map .num)) := by
  refine ⟨⟨List.insertionSort (· ≤ ·) xs, List.sorted_insertionSort _ _,
      List.perm_insertionSort _ _, stringSet_encode_eq xs⟩, ?_,
    ⟨List.insertionSort (· ≤ ·) ns, List.sorted_insertionSort _ _,
      List.perm_insertionSort _ _, numberSet_encode_eq ns⟩, ?_⟩
  · rw [stringSet_encode_eq xs, stringSet_encode_eq ys,
      List.eq_of_perm_of_sorted
        ((List.perm_insertionSort _ xs).trans
          (hxy.trans (List.perm_insertionSort _ ys).symm))
        (List.sorted_insertionSort _ _) (List.sorted_insertionSort _ _)]
  · rw [numberSet_encode_eq ns, numberSet_encode_eq ms,
      List.eq_of_perm_of_sorted
        ((List.perm_insertionSort _ ns).trans
          (hnm.trans (List.perm_insertionSort _ ms).symm))
        (List.sorted_insertionSort _ _) (List.sorted_insertionSort _ _)]

theorem set_encode_sorted_and_deterministic_witness :
    (∃ ss : List String, List.Sorted (· ≤ ·) ss ∧ ss.Perm ["b", "a"] ∧
      stringSet.encode (.set (["b", "a"].map .str)) = .obj [("SS", .arr (ss.map .str))]) ∧
    stringSet.encode (.set (["b", "a"].map .str)) =
      stringSet.encode (.set (["a", "b"].map .str)) ∧
    (∃ vs : List Int, List.Sorted (· ≤ ·) vs ∧ vs.Perm [2, 1] ∧
      numberSet.encode (.set ([2, 1].map .num)) =
        .obj [("NS", .arr (vs.map (fun n => .str (toString n))))]) ∧
    numberSet.encode (.set ([2, 1].map .num)) =
      numberSet.encode (.set ([1, 2].map .num)) :=
  set_encode_sorted_and_deterministic ["b", "a"] ["a", "b"] [2, 1] [1, 2]
    (by decide) (by decide) (List.Perm.swap "a" "b" [])
    (by decide) (by decide) (List.Perm.swap 1 2 [])

/-! ### Set decoding -/

theorem stringSet_decode_eq (ss : List String) :
    stringSet.decode (.obj [("SS", .arr (ss.map .str))]) =
      (if ss.Nodup then Except.ok (.set (ss.map .str))
       else .error [⟨.arr (ss.map .str),
        [⟨"", "Set<string>", .arr (ss.map .str)⟩], none⟩]) := by
  rw [show stringSet.decode (.obj [("SS", .arr (ss.map .str))]) =
      (setFromArray tString ordStringCompare "Set<string>").decode
        (.arr (ss.map .str)) from
    dynType_decode_obj "DynamoDbStringSet" "SS" _ _ rfl]
  rw [Codec.decode]
  have harr : arrayValidate tString (.arr (ss.map .str))
      [⟨"", "Set<string>", .arr (ss.map .str)⟩] = .ok (ss.map .str) := by
    simp only [arrayValidate, arrayGo_str]
    rfl
  simp only [setFromArray, harr]
  rw [hasDupBy_map JsValue.str (fun a b => ordStringCompare a b == Ordering.eq)
    ordStringCompare_beq_eq ss]
  by_cases hd : ss.Nodup <;> simp [hd]

theorem numberSet_decode_eq (ns : List String) (vs : List Int)
    (hp : List.Forall₂
      (fun s v => ∀ ctx, NumberFromString.validate (.str s) ctx = .ok (.num v)) ns vs) :
    numberSet.decode (.obj [("NS", .arr (ns.map .str))]) =
      (if vs.Nodup then Except.ok (.set (vs.map .num))
       else .error [⟨.arr (ns.map .str),
        [⟨"", "Set<NumberFromString>", .arr (ns.map .str)⟩], none⟩]) := by
  rw [show numberSet.decode (.obj [("NS", .arr (ns.map .str))]) =
      (setFromArray NumberFromString ordNumberCompare "Set<NumberFromString>").decode
        (.arr (ns.map .str)) from
    dynType_decode_obj "DynamoDbNumberSet" "NS" _ _ rfl]
  rw [Codec.decode]
  have harr : arrayValidate NumberFromString (.arr (ns.map .str))
      [⟨"", "Set<NumberFromString>", .arr (ns.map .str)⟩] = .ok (vs.map .num) := by
    simp only [arrayValidate, arrayGo_num _ hp 0]
    rfl
  simp only [setFromArray, harr]
  rw [hasDupBy_map JsValue.num (fun a b => ordNumberCompare a b == Ordering.eq)
    ordNumberCompare_beq_eq vs]
  by_cases hd : vs.Nodup <;> simp [hd]

/-- Claim C10 (confirmed): set decoding succeeds exactly when the decoded
elements are pairwise distinct; an `SS`/`NS` array containing duplicates
(after element decoding, e.g. `"1"` and `"01"` both parsing to `1`) is
rejected even though every element individually passes its element codec. -/
theorem set_decode_rejects_duplicates (ss ns : List String) (vs : List Int)
    (hp : List.Forall₂
      (fun s v => ∀ ctx, NumberFromString.validate (.str s) ctx = .ok (.num v)) ns vs) :
    ((stringSet.decode (.obj [("SS", .arr (ss.map .str))]) =
        .ok (.set (ss.map .str))) ↔ ss.Nodup) ∧
    (¬ ss.Nodup → stringSet.decode (.obj [("SS", .arr (ss.map .str))]) =
        .error [⟨.arr (ss.map .str),
          [⟨"", "Set<string>", .arr (ss.map .str)⟩], none⟩]) ∧
    ((numberSet.decode (.obj [("NS", .arr (ns.map .str))]) =
        .ok (.set (vs.map .num))) ↔ vs.Nodup) ∧
    (¬ vs.Nodup → numberSet.decode (.obj [("NS", .arr (ns.map .str))]) =
        .error [⟨.arr (ns.map .str),
          [⟨"", "Set<NumberFromString>", .arr (ns.map .str)⟩], none⟩]) := by
  rw [stringSet_decode_eq ss, numberSet_decode_eq ns vs hp]
  by_cases hs : ss.Nodup <;> by_cases hv : vs.Nodup <;> simp [hs, hv]

theorem set_decode_rejects_duplicates_witness :
    ((stringSet.decode (.obj [("SS", .arr (["x", "x"].map .str))]) =
        .ok (.set (["x", "x"].map .str))) ↔ (["x", "x"] : List String).Nodup) ∧
    (¬ (["x", "x"] : List String).Nodup →
      stringSet.decode (.obj [("SS", .arr (["x", "x"].map .str))]) =
        .error [⟨.arr (["x", "x"].map .str),
          [⟨"", "Set<string>", .arr (["x", "x"].map .str)⟩], none⟩]) ∧
    ((numberSet.decode (.obj [("NS", .arr (["1", "01"].map .str))]) =
        .ok (.set (([1, 1] : List Int).map .num))) ↔ ([1, 1] : List Int).Nodup) ∧
    (¬ ([1, 1] : List Int).Nodup →
      numberSet.decode (.obj [("NS", .arr (["1", "01"].map .str))]) =
        .error [⟨.arr (["1", "01"].map .str),
          [⟨"", "Set<NumberFromString>", .arr (["1", "01"].map .str)⟩], none⟩]) :=
  set_decode_rejects_duplicates ["x", "x"] ["1", "01"] [1, 1]
    (List.Forall₂.cons (fun _ => rfl) (List.Forall₂.cons (fun _ => rfl) List.Forall₂.nil))

/-! ### List codec: order preservation -/

theorem arrayValidate_ok (item : Codec) (u : JsValue) (c : List ContextEntry)
    (as : List JsValue)
    (hwf : ∀ u' ctx es, item.validate u' ctx = .error es → es ≠ [])
    (h : arrayValidate item u c = .ok as) :
    ∃ us, u = .arr us ∧
      List.Forall₂ (fun x d => ∃ ctx, item.validate x ctx = .ok d) us as := by
  cases u with
  | arr us =>
      refine ⟨us, rfl, ?_⟩
      simp only [arrayValidate] at h
      cases hgo : arrayGo item c 0 us with
      | mk es as' =>
          rw [hgo] at h
          cases es with
          | nil =>
              simp only [List.isEmpty_nil, if_true, Except.ok.injEq] at h
              subst h
              have hfa := arrayGo_all_ok item c hwf 0 us (by rw [hgo])
              rw [hgo] at hfa
              exact hfa
          | cons e es' => simp at h
  | undefined => simp [arrayValidate] at h
  | null => simp [arrayValidate] at h
  | bool b => simp [arrayValidate] at h
  | num n => simp [arrayValidate] at h
  | str s => simp [arrayValidate] at h
  | obj fs => simp [arrayValidate] at h
  | set xs => simp [arrayValidate] at h

/-- The `string` codec never produces an empty error list (in `io-ts` the
`Errors` type is a nonempty array by construction). -/
theorem string_validate_error_nonempty (u : JsValue) (ctx : List ContextEntry)
    (es : List ValidationError) (h : string.validate u ctx = .error es) : es ≠ [] := by
  intro hnil
  subst hnil
  simp only [string, DynamoDbType] at h
  split at h
  · simp at h
  · rw [Codec.decode] at h
    cases hu : u.getProp "S" <;> rw [hu] at h <;> simp [tString, failureAt] at h

/-- Claim C8 (confirmed): `list(c).encode` wraps, under the `L` tag, the
elementwise encodings in input order; and whenever `list(c).decode` succeeds,
the result pairs the wire elements with their decodings positionally, so the
decoded order equals the wire order.  The side condition `hwf` is the `io-ts`
type invariant that a failed validation carries at least one error. -/
theorem list_encode_decode_preserve_order (codec : Codec) (xs : List JsValue)
    (i v : JsValue)
    (hwf : ∀ u ctx es, codec.validate u ctx = .error es → es ≠ [])
    (hdec : (list codec).decode i = .ok v) :
    (list codec).encode (.arr xs) = .obj [("L", .arr (xs.map codec.encode))] ∧
    ∃ us ds, i.getProp "L" = .arr us ∧ v = .arr ds ∧
      List.Forall₂ (fun u d => ∃ ctx, codec.validate u ctx = .ok d) us ds := by
  refine ⟨rfl, ?_⟩
  rw [Codec.decode] at hdec
  simp only [list, DynamoDbType] at hdec
  split at hdec
  · exact absurd hdec (by simp)
  · rw [Codec.decode] at hdec
    simp only [tArray] at hdec
    cases hm : arrayValidate codec (i.getProp "L")
        [⟨"", "Array<" ++ codec.name ++ ">", i.getProp "L"⟩] with
    | error es =>
        rw [hm] at hdec
        simp [Except.map] at hdec
    | ok as =>
        rw [hm] at hdec
        simp only [Except.map, Except.ok.injEq] at hdec
        obtain ⟨us, hu, hfa⟩ := arrayValidate_ok codec _ _ as hwf hm
        exact ⟨us, as, hu, hdec.symm, hfa⟩

theorem list_encode_decode_preserve_order_witness :
    ((list string).encode (.arr [.str "a"]) =
      .obj [("L", .arr ([JsValue.str "a"].map string.encode))]) ∧
    ∃ us ds, (JsValue.obj [("L", .arr [.obj [("S", .str "a")]])]).getProp "L" = .arr us ∧
      (JsValue.arr [.str "a"]) = .arr ds ∧
      List.Forall₂ (fun u d => ∃ ctx, string.validate u ctx = .ok d) us ds :=
  list_encode_decode_preserve_order string [.str "a"]
    (.obj [("L", .arr [.obj [("S", .str "a")]])]) (.arr [.str "a"])
    string_validate_error_nonempty rfl

end IoTsDynamoDb
